import Mathlib

/-!
# Verification of the myozen telemetry core

Shallow embedding of the EMG/EMS telemetry core of the repository:
the wireless frame decoder (`parseDeviceData`), the session aggregator
(`processEMGData` / the EMG branch of `handleDeviceData`), the reconnect
backoff logic of the wireless and pub/sub transports, and the sync
scheduler (`SyncService.syncData`, `syncEMGRecord`, `forceSyncRecords`).

Bytes are modelled as natural numbers (a buffer cell holds a value
`< 256`; the reads reduce modulo 256 exactly as a Node `Buffer` cell
would store them), times as natural numbers (milliseconds), and the
Mongo collection backing `EMGData` as a list of records together with
a fresh-id counter.
-/

namespace Myozen

/-! ## Wireless frame decoder (`parseDeviceData`, bluetooth.service.js 501-572)

The JS function reads `data[0]` as a discriminator (1 = EMG, 2 = EMS),
`readUInt32LE(1)` as the session id, `readBigUInt64LE(5)` as the
timestamp, and the tail from offset 13 onwards.  The `readUInt32LE` /
`readBigUInt64LE` calls throw a `RangeError` on a buffer shorter than
offset+width; the surrounding `try`/`catch` turns that into `null`.

The timestamp line is `new Date(data.readBigUInt64LE(5))`.
`readBigUInt64LE` returns a BigInt, and the one-argument `Date`
constructor applies `ToNumber` to a primitive non-string argument, which
for a BigInt throws a `TypeError` (ECMA-262 §7.1.4, "Cannot convert a
BigInt value to a number").  The throw is caught at line 568 and turned
into `null`, so every recognised frame that reaches the timestamp
conversion — i.e. every frame with the full 13-byte header — decodes to
`null`, and the sample-extraction loop below it is unreachable.  The
model keeps the branch structure and the (dead) loop, routing the
timestamp through `dateOfBigUInt64` so the error path is explicit. -/

/-- One decoded sample: the shared frame timestamp and a signed 16-bit value. -/
structure DataPoint where
  timestamp : Nat
  value : Int
  deriving Repr, DecidableEq

/-- `Buffer.readInt16LE` at a pair of byte cells: little-endian, two's complement. -/
def readInt16LE (b0 b1 : Nat) : Int :=
  let u : Nat := b0 % 256 + 256 * (b1 % 256)
  if u < 32768 then (u : Int) else (u : Int) - 65536

/-- `Buffer.readUInt32LE(1)`: bytes 1..4, little-endian. -/
def readUInt32LE1 (data : List Nat) : Nat :=
  data.getD 1 0 % 256 + 256 * (data.getD 2 0 % 256) +
    65536 * (data.getD 3 0 % 256) + 16777216 * (data.getD 4 0 % 256)

/-- `Buffer.readBigUInt64LE(5)`: bytes 5..12, little-endian. -/
def readUInt64LE5 (data : List Nat) : Nat :=
  List.sum ((List.range 8).map (fun k => 256 ^ k * (data.getD (5 + k) 0 % 256)))

/-- The EMG sample loop of `parseDeviceData`: `for (i = 13; i < len; i += 2)`
with guard `i + 1 < len`, reading `readInt16LE(i)`.  Expressed on the tail
`data.drop 13`: consume byte pairs while two bytes remain; a trailing odd
byte is dropped by the guard. -/
def emgDataPoints (ts : Nat) : List Nat → List DataPoint
  | b0 :: b1 :: rest => ⟨ts, readInt16LE b0 b1⟩ :: emgDataPoints ts rest
  | _ => []

/-- Normalized result of decoding one wireless frame. -/
inductive ParsedData where
  | emg (sessionId : Nat) (timestamp : Nat) (dataPoints : List DataPoint)
  | ems (sessionId : Nat) (timestamp : Nat)
      (intensity frequency pulseWidth : Option Nat) (response : List Nat)
  deriving Repr, DecidableEq

/-- `new Date(t)` for the BigInt `t` returned by `readBigUInt64LE`: the
`Date` constructor applies `ToNumber` to its primitive non-string argument,
and `ToNumber` of a BigInt throws a `TypeError` (ECMA-262 §7.1.4), so the
conversion never produces a value. -/
def dateOfBigUInt64 (_t : Nat) : Option Nat :=
  none

/-- `parseDeviceData` (bluetooth.service.js 501-572).  `data[0]` is
`undefined` on an empty buffer, matching neither 1 nor 2; the fixed-width
reads throw (caught, `null`) unless the 13 header bytes are present; with
the header present, `new Date(data.readBigUInt64LE(5))` throws a
`TypeError` (caught, `null`), so neither recognised branch ever reaches
its `return` — the sample loop and the EMS parameter reads below the
timestamp line are retained here as the source's (dead) code. -/
def parseDeviceData (data : List Nat) : Option ParsedData :=
  if data.get? 0 = some 1 then
    if 13 ≤ data.length then
      match dateOfBigUInt64 (readUInt64LE5 data) with
      | some ts => some (.emg (readUInt32LE1 data) ts (emgDataPoints ts (data.drop 13)))
      | none => none
    else none
  else if data.get? 0 = some 2 then
    if 13 ≤ data.length then
      match dateOfBigUInt64 (readUInt64LE5 data) with
      | some ts => some (.ems (readUInt32LE1 data) ts
          (data.get? 13) (data.get? 14) (data.get? 15) (data.drop 16))
      | none => none
    else none
  else none

example : parseDeviceData [] = none := by decide
example : parseDeviceData [1, 2, 3] = none := by decide
example : parseDeviceData [7, 0, 0, 0, 0, 0, 0, 0, 0, 0, 0, 0, 0, 0] = none := by decide
example :
    parseDeviceData [1, 9, 0, 0, 0, 0, 0, 0, 0, 0, 0, 0, 0, 5, 0, 255, 255, 42] =
      none := by decide

theorem emgDataPoints_length (ts : Nat) :
    ∀ l : List Nat, (emgDataPoints ts l).length = l.length / 2
  | [] => rfl
  | [_] => by simp [emgDataPoints]
  | _ :: _ :: rest => by
      simp only [emgDataPoints, List.length_cons, emgDataPoints_length ts rest]
      omega

theorem emgDataPoints_get? (ts : Nat) :
    ∀ (l : List Nat) (i : Nat),
      (emgDataPoints ts l).get? i =
        (l.get? (2 * i)).bind
          (fun b0 => (l.get? (2 * i + 1)).map (fun b1 => ⟨ts, readInt16LE b0 b1⟩))
  | [], i => by simp [emgDataPoints]
  | [b], i => by
      cases i with
      | zero => simp [emgDataPoints]
      | succ j => simp [emgDataPoints, List.get?]
  | b0 :: b1 :: rest, 0 => by simp [emgDataPoints]
  | b0 :: b1 :: rest, i + 1 => by
      have h2 : 2 * (i + 1) = 2 * i + 1 + 1 := by ring
      simp only [emgDataPoints, List.get?_cons_succ, h2]
      exact emgDataPoints_get? ts rest i

/-- **C7.** The wireless frame decoder is total (`parseDeviceData` is a plain
function into `Option`, so it never raises): every frame shorter than the
13-byte header, and every frame whose first-byte discriminator is neither
1 (EMG) nor 2 (EMS), decodes to `null`. -/
theorem parseDeviceData_short_or_unknown_eq_none (data : List Nat)
    (h : data.length < 13 ∨ (data.get? 0 ≠ some 1 ∧ data.get? 0 ≠ some 2)) :
    parseDeviceData data = none := by
  unfold parseDeviceData
  rcases h with hshort | ⟨h1, h2⟩
  · split
    · rw [if_neg (by omega)]
    · split
      · rw [if_neg (by omega)]
      · rfl
  · rw [if_neg h1, if_neg h2]

theorem parseDeviceData_short_or_unknown_eq_none_witness :
    (([1, 2, 3] : List Nat).length < 13 ∨
        (([1, 2, 3] : List Nat).get? 0 ≠ some 1 ∧ ([1, 2, 3] : List Nat).get? 0 ≠ some 2)) ∧
      parseDeviceData [1, 2, 3] = none :=
  ⟨Or.inl (by decide),
    parseDeviceData_short_or_unknown_eq_none [1, 2, 3] (Or.inl (by decide))⟩

/-- **C10 (code bug).** The source's own comment (bluetooth.service.js 511)
documents the EMG frame format `[1, sessionId(4), timestamp(8), value1,
value2, ...]` and its loop is written to extract the tail as signed 16-bit
little-endian samples, but the timestamp line
`new Date(data.readBigUInt64LE(5))` throws a `TypeError` (`ToNumber` of a
BigInt), caught at line 568 — so every wireless EMG frame (first byte 1),
full header or not, decodes to `null` and never to `⌊(L-13)/2⌋` data
points; the sample loop is unreachable. -/
theorem parseDeviceData_emg_always_null (data : List Nat)
    (h0 : data.get? 0 = some 1) :
    parseDeviceData data = none := by
  unfold parseDeviceData
  rw [if_pos h0]
  split
  · rfl
  · rfl

theorem parseDeviceData_emg_always_null_witness :
    (([1, 9, 0, 0, 0, 0, 0, 0, 0, 0, 0, 0, 0, 5, 0, 77] : List Nat).get? 0 = some 1) ∧
      parseDeviceData [1, 9, 0, 0, 0, 0, 0, 0, 0, 0, 0, 0, 0, 5, 0, 77] = none :=
  ⟨rfl, parseDeviceData_emg_always_null [1, 9, 0, 0, 0, 0, 0, 0, 0, 0, 0, 0, 0, 5, 0, 77] rfl⟩

/-! ## Session aggregator (`processEMGData`, bluetooth.service.js 580-629;
the EMG branch of `handleDeviceData`, mqtt.service.js 996-1036, is the
same find-or-create/append algorithm)

The Mongo collection backing `EMGData` is modelled as a list of records
plus a fresh-id counter; `EMGData.findOne({sessionId, device})` is a
`find?` on the list, `EMGData.create` appends a record carrying the next
fresh id, and `EMGData.findByIdAndUpdate(id, {$push…, endTime})` maps the
update over the record with that id.  `new Date()` at processing time is
the explicit `now` argument; the event's own frame timestamp travels in
`EMGEvent.timestamp` and inside its data points. -/

/-- Persistent sync state of a record (`syncStatus` of `emgDataSchema`). -/
structure SyncStatus where
  synced : Bool
  syncedAt : Option Nat
  deriving Repr, DecidableEq

/-- One persisted EMG session record (document of the `EMGData` collection). -/
structure EMGRecord where
  id : Nat
  device : Nat
  sessionId : Nat
  startTime : Nat
  endTime : Option Nat
  dataPoints : List DataPoint
  syncStatus : SyncStatus
  deriving Repr, DecidableEq

/-- One decoded device event handed to `processEMGData` (its `device`
already resolved, `sessionId` and samples from the decoded frame). -/
structure EMGEvent where
  device : Nat
  sessionId : Nat
  timestamp : Nat
  dataPoints : List DataPoint
  deriving Repr, DecidableEq

/-- The `EMGData` collection: records plus the next fresh document id. -/
structure EMGStore where
  records : List EMGRecord
  nextId : Nat
  deriving Repr, DecidableEq

/-- The filter `{sessionId: s, device: d}` of `EMGData.findOne`. -/
def sessionKey (d s : Nat) (r : EMGRecord) : Bool :=
  r.sessionId == s && r.device == d

/-- `EMGData.findOne({sessionId, device})`: first matching document. -/
def findSession (st : EMGStore) (d s : Nat) : Option EMGRecord :=
  st.records.find? (sessionKey d s)

/-- The update document `{$push: {dataPoints: {$each: pts}}, endTime: new Date()}`. -/
def appendUpdate (pts : List DataPoint) (now : Nat) (r : EMGRecord) : EMGRecord :=
  { r with dataPoints := r.dataPoints ++ pts, endTime := some now }

/-- `EMGData.findByIdAndUpdate(targetId, f)`. -/
def findByIdAndUpdate (st : EMGStore) (targetId : Nat) (f : EMGRecord → EMGRecord) :
    EMGStore :=
  { st with records := st.records.map (fun r => if r.id == targetId then f r else r) }

/-- `EMGData.create({device, …, sessionId, dataPoints, metadata, syncStatus:{synced:false}})`;
`startTime` takes its schema default (creation time), `endTime` stays unset. -/
def createSession (st : EMGStore) (e : EMGEvent) (now : Nat) : EMGStore :=
  { records := st.records ++
      [{ id := st.nextId, device := e.device, sessionId := e.sessionId,
         startTime := now, endTime := none, dataPoints := e.dataPoints,
         syncStatus := { synced := false, syncedAt := none } }],
    nextId := st.nextId + 1 }

/-- `processEMGData` (bluetooth.service.js 580-629): find-or-create/append. -/
def processEMGData (now : Nat) (e : EMGEvent) (st : EMGStore) : EMGStore :=
  match findSession st e.device e.sessionId with
  | some s => findByIdAndUpdate st s.id (appendUpdate e.dataPoints now)
  | none => createSession st e now

/-- A serialized sequence of ingestion passes, each tagged with its
processing wall-clock time. -/
def processAll (evs : List (Nat × EMGEvent)) (st : EMGStore) : EMGStore :=
  evs.foldl (fun acc p => processEMGData p.1 p.2 acc) st

def emptyStore : EMGStore := ⟨[], 0⟩

/-- Store well-formedness: every document id is below the fresh-id counter
and document ids are pairwise distinct. -/
def WF (st : EMGStore) : Prop :=
  (∀ r ∈ st.records, r.id < st.nextId) ∧ (st.records.map EMGRecord.id).Nodup

/-- The records of the store for one `(device, sessionId)` pair. -/
def keyRecords (d s : Nat) (st : EMGStore) : List EMGRecord :=
  st.records.filter (sessionKey d s)

/-- The events of a tagged sequence addressed to one `(device, sessionId)` pair. -/
def keyEvents (d s : Nat) (evs : List (Nat × EMGEvent)) : List EMGEvent :=
  (evs.map Prod.snd).filter (fun e => e.device == d && e.sessionId == s)

theorem filter_singleton_find? {α : Type _} (p : α → Bool) :
    ∀ (l : List α) (x : α), l.filter p = [x] → l.find? p = some x
  | [], x => by intro h; simp at h
  | a :: t, x => by
      intro h
      by_cases hp : p a
      · rw [List.filter_cons_of_pos hp] at h
        rw [List.find?_cons_of_pos _ hp]
        exact congrArg some (List.cons_eq_cons.mp h).1
      · rw [List.filter_cons_of_neg hp] at h
        rw [List.find?_cons_of_neg _ hp]
        exact filter_singleton_find? p t x h

theorem appendUpdate_id (pts : List DataPoint) (now : Nat) (r : EMGRecord) :
    (appendUpdate pts now r).id = r.id := rfl

theorem sessionKey_appendUpdate (d s : Nat) (pts : List DataPoint) (now : Nat)
    (r : EMGRecord) : sessionKey d s (appendUpdate pts now r) = sessionKey d s r := rfl

theorem update_preserves_id (tid : Nat) (pts : List DataPoint) (now : Nat)
    (r : EMGRecord) :
    (if r.id == tid then appendUpdate pts now r else r).id = r.id := by
  split <;> rfl

theorem findByIdAndUpdate_ids (st : EMGStore) (tid : Nat) (pts : List DataPoint)
    (now : Nat) :
    ((findByIdAndUpdate st tid (appendUpdate pts now)).records.map EMGRecord.id) =
      st.records.map EMGRecord.id := by
  unfold findByIdAndUpdate
  rw [List.map_map]
  exact List.map_congr_left (fun r _ => update_preserves_id tid pts now r)

theorem processEMGData_WF (now : Nat) (e : EMGEvent) (st : EMGStore) (hwf : WF st) :
    WF (processEMGData now e st) := by
  obtain ⟨hbound, hnodup⟩ := hwf
  unfold processEMGData
  cases hfind : findSession st e.device e.sessionId with
  | some r0 =>
      refine ⟨?_, ?_⟩
      · intro r hr
        unfold findByIdAndUpdate at hr
        simp only at hr
        obtain ⟨r', hr', hrr⟩ := List.mem_map.mp hr
        have : r.id = r'.id := by
          subst hrr
          exact update_preserves_id r0.id e.dataPoints now r'
        rw [show (findByIdAndUpdate st r0.id (appendUpdate e.dataPoints now)).nextId =
          st.nextId from rfl, this]
        exact hbound r' hr'
      · rw [findByIdAndUpdate_ids]
        exact hnodup
  | none =>
      refine ⟨?_, ?_⟩
      · intro r hr
        unfold createSession at hr ⊢
        simp only at hr ⊢
        rcases List.mem_append.mp hr with h | h
        · exact Nat.lt_succ_of_lt (hbound r h)
        · rw [List.mem_singleton.mp h]
          exact Nat.lt_succ_self _
      · unfold createSession
        simp only [List.map_append, List.map_cons, List.map_nil]
        rw [List.nodup_append]
        refine ⟨hnodup, List.nodup_singleton _, ?_⟩
        intro a ha hb
        obtain ⟨r, hr, hrid⟩ := List.mem_map.mp ha
        rw [List.mem_singleton.mp hb] at hrid
        exact absurd (hrid ▸ hbound r hr) (lt_irrefl _)

theorem filter_map_of_key_preserving {p : EMGRecord → Bool} {f : EMGRecord → EMGRecord}
    (hpf : ∀ r, p (f r) = p r) :
    ∀ l : List EMGRecord, (l.map f).filter p = (l.filter p).map f
  | [] => rfl
  | a :: t => by
      by_cases h : p a
      · rw [List.map_cons, List.filter_cons_of_pos (by rw [hpf]; exact h),
          List.filter_cons_of_pos h, List.map_cons,
          filter_map_of_key_preserving hpf t]
      · rw [List.map_cons, List.filter_cons_of_neg (by rw [hpf]; simpa using h),
          List.filter_cons_of_neg h, filter_map_of_key_preserving hpf t]

/-- First event for a fresh `(device, sessionId)` pair: the absent branch
creates the one record of the pair, holding exactly the event's samples. -/
theorem keyRecords_process_create (d s now : Nat) (e : EMGEvent) (st : EMGStore)
    (hkey : e.device = d ∧ e.sessionId = s) (hempty : keyRecords d s st = []) :
    keyRecords d s (processEMGData now e st) =
      [{ id := st.nextId, device := e.device, sessionId := e.sessionId,
         startTime := now, endTime := none, dataPoints := e.dataPoints,
         syncStatus := { synced := false, syncedAt := none } }] := by
  obtain ⟨hd, hs⟩ := hkey
  have hfind : findSession st e.device e.sessionId = none := by
    unfold findSession
    rw [hd, hs]
    refine List.find?_eq_none.mpr (fun r hr => ?_)
    intro hp
    have := List.filter_eq_nil_iff.mp hempty r hr
    exact this hp
  unfold processEMGData
  rw [hfind]
  unfold createSession keyRecords
  simp only [List.filter_append]
  rw [List.filter_eq_nil_iff.mpr (fun r hr hp =>
    (List.filter_eq_nil_iff.mp hempty r hr) hp)]
  have hnew : sessionKey d s
      { id := st.nextId, device := e.device, sessionId := e.sessionId,
        startTime := now, endTime := none, dataPoints := e.dataPoints,
        syncStatus := { synced := false, syncedAt := none } } = true := by
    simp [sessionKey, hd, hs]
  rw [List.filter_cons_of_pos hnew]
  rfl

/-- Later event for an existing `(device, sessionId)` pair holding exactly one
record: the found branch appends to that record and advances `endTime`. -/
theorem keyRecords_process_append (d s now : Nat) (e : EMGEvent) (st : EMGStore)
    (hkey : e.device = d ∧ e.sessionId = s) (r0 : EMGRecord)
    (hone : keyRecords d s st = [r0]) :
    keyRecords d s (processEMGData now e st) = [appendUpdate e.dataPoints now r0] := by
  obtain ⟨hd, hs⟩ := hkey
  have hfind : findSession st e.device e.sessionId = some r0 := by
    unfold findSession
    rw [hd, hs]
    exact filter_singleton_find? _ _ _ hone
  unfold processEMGData
  rw [hfind]
  unfold findByIdAndUpdate keyRecords
  simp only
  rw [filter_map_of_key_preserving (fun r => by
    by_cases h : r.id == r0.id
    · rw [if_pos h, sessionKey_appendUpdate]
    · rw [if_neg h])]
  rw [show st.records.filter (sessionKey d s) = [r0] from hone,
    List.map_cons, List.map_nil, if_pos (beq_self_eq_true r0.id)]

/-- An event for an unrelated key leaves the records of `(d, s)` untouched. -/
theorem keyRecords_process_other (d s now : Nat) (e : EMGEvent) (st : EMGStore)
    (hwf : WF st) (hkey : ¬(e.device = d ∧ e.sessionId = s)) :
    keyRecords d s (processEMGData now e st) = keyRecords d s st := by
  unfold processEMGData
  cases hfind : findSession st e.device e.sessionId with
  | none =>
      unfold createSession keyRecords
      simp only [List.filter_append]
      have hnew : sessionKey d s
          { id := st.nextId, device := e.device, sessionId := e.sessionId,
            startTime := now, endTime := none, dataPoints := e.dataPoints,
            syncStatus := { synced := false, syncedAt := none } } = false := by
        cases h : sessionKey d s
            { id := st.nextId, device := e.device, sessionId := e.sessionId,
              startTime := now, endTime := none, dataPoints := e.dataPoints,
              syncStatus := { synced := false, syncedAt := none } }
        · rfl
        · exfalso
          apply hkey
          obtain ⟨h1, h2⟩ := Bool.and_eq_true_iff.mp h
          exact ⟨eq_of_beq h2, eq_of_beq h1⟩
      rw [List.filter_cons_of_neg (by simp [hnew]), List.filter_nil, List.append_nil]
  | some r0 =>
      have hr0mem : r0 ∈ st.records := List.mem_of_find?_eq_some hfind
      have hr0key : sessionKey e.device e.sessionId r0 = true := List.find?_some hfind
      obtain ⟨hr0s, hr0d⟩ := Bool.and_eq_true_iff.mp hr0key
      unfold findByIdAndUpdate keyRecords
      simp only
      rw [filter_map_of_key_preserving (fun r => by
        by_cases h : r.id == r0.id
        · rw [if_pos h, sessionKey_appendUpdate]
        · rw [if_neg h])]
      conv_rhs => rw [← List.map_id (st.records.filter (sessionKey d s))]
      refine List.map_congr_left (fun r hr => ?_)
      have hrmem : r ∈ st.records := List.mem_of_mem_filter hr
      have hrkey : sessionKey d s r = true := List.of_mem_filter hr
      obtain ⟨hrs, hrd⟩ := Bool.and_eq_true_iff.mp hrkey
      have hneq : ¬(r.id == r0.id) = true := by
        intro hid
        have hrr0 : r = r0 :=
          List.inj_on_of_nodup_map hwf.2 hrmem hr0mem (eq_of_beq hid)
        apply hkey
        subst hrr0
        exact ⟨(eq_of_beq hr0d).symm.trans (eq_of_beq hrd),
          (eq_of_beq hr0s).symm.trans (eq_of_beq hrs)⟩
      rw [if_neg hneq]
      rfl

/-- Main aggregation invariant: folding a tagged event sequence through
`processEMGData` sends an absent key to the joined payload of its events
(or leaves it absent), and a singleton key record to that record with the
joined payload appended. -/
theorem processAll_keyRecords (d s : Nat) (evs : List (Nat × EMGEvent)) :
    ∀ st : EMGStore, WF st →
      (keyRecords d s st = [] →
        (keyRecords d s (processAll evs st)).map EMGRecord.dataPoints =
          if keyEvents d s evs = [] then []
          else [((keyEvents d s evs).map EMGEvent.dataPoints).flatten]) ∧
      (∀ r0, keyRecords d s st = [r0] →
        (keyRecords d s (processAll evs st)).map EMGRecord.dataPoints =
          [r0.dataPoints ++ ((keyEvents d s evs).map EMGEvent.dataPoints).flatten]) := by
  induction evs with
  | nil =>
      intro st _
      refine ⟨fun h => ?_, fun r0 h => ?_⟩
      · simp [processAll, keyEvents, h]
      · simp [processAll, keyEvents, h]
  | cons p rest ih =>
      intro st hwf
      obtain ⟨now, e⟩ := p
      have hstep : processAll ((now, e) :: rest) st =
          processAll rest (processEMGData now e st) := rfl
      have hwf' : WF (processEMGData now e st) := processEMGData_WF now e st hwf
      by_cases hk : e.device = d ∧ e.sessionId = s
      · have hkeyev : keyEvents d s ((now, e) :: rest) = e :: keyEvents d s rest := by
          unfold keyEvents
          rw [List.map_cons, List.filter_cons_of_pos (by simp [hk.1, hk.2])]
        refine ⟨fun h => ?_, fun r0 h => ?_⟩
        · have hcreate := keyRecords_process_create d s now e st hk h
          have := (ih (processEMGData now e st) hwf').2 _ hcreate
          rw [hstep, this, hkeyev]
          rw [if_neg (by simp)]
          simp
        · have happend := keyRecords_process_append d s now e st hk r0 h
          have := (ih (processEMGData now e st) hwf').2 _ happend
          rw [hstep, this, hkeyev]
          simp [appendUpdate, List.append_assoc]
      · have hkeyev : keyEvents d s ((now, e) :: rest) = keyEvents d s rest := by
          unfold keyEvents
          rw [List.map_cons, List.filter_cons_of_neg ?_]
          cases hdev : (e.device == d) with
          | false => simp [hdev]
          | true =>
              cases hses : (e.sessionId == s) with
              | false => simp [hdev, hses]
              | true => exact absurd ⟨eq_of_beq hdev, eq_of_beq hses⟩ hk
        have hother := keyRecords_process_other d s now e st hwf hk
        refine ⟨fun h => ?_, fun r0 h => ?_⟩
        · have := (ih (processEMGData now e st) hwf').1 (hother.trans h)
          rw [hstep, this, hkeyev]
        · have := (ih (processEMGData now e st) hwf').2 r0 (hother.trans h)
          rw [hstep, this, hkeyev]

/-- **C1.** For any tagged event sequence (events for unrelated keys freely
interleaved) whose events for `(d, s)` are nonempty, starting from a
well-formed store holding no record for `(d, s)`: afterwards exactly one
record exists for the pair, and its payload is the concatenation, in
arrival order, of the samples of all the events for the pair. -/
theorem sessionAggregator_single_record (evs : List (Nat × EMGEvent)) (d s : Nat)
    (st0 : EMGStore) (hwf : WF st0)
    (hnone : ∀ r ∈ st0.records, sessionKey d s r = false)
    (hne : keyEvents d s evs ≠ []) :
    (keyRecords d s (processAll evs st0)).length = 1 ∧
    (keyRecords d s (processAll evs st0)).map EMGRecord.dataPoints =
      [((keyEvents d s evs).map EMGEvent.dataPoints).flatten] := by
  have h0 : keyRecords d s st0 = [] :=
    List.filter_eq_nil_iff.mpr (fun r hr hp => by rw [hnone r hr] at hp; exact absurd hp (by simp))
  have hmain := (processAll_keyRecords d s evs st0 hwf).1 h0
  rw [if_neg hne] at hmain
  refine ⟨?_, hmain⟩
  have hlen := congrArg List.length hmain
  rwa [List.length_map, List.length_singleton] at hlen

theorem WF_emptyStore : WF emptyStore := by
  unfold WF emptyStore
  exact ⟨fun r hr => absurd hr (List.not_mem_nil r), List.nodup_nil⟩

theorem sessionAggregator_single_record_witness :
    WF emptyStore ∧
      (∀ r ∈ emptyStore.records, sessionKey 1 2 r = false) ∧
      keyEvents 1 2
          [(10, ⟨1, 2, 7, [⟨7, 5⟩, ⟨7, 6⟩]⟩), (15, ⟨3, 4, 8, [⟨8, 9⟩]⟩),
            (20, ⟨1, 2, 9, [⟨9, 1⟩]⟩)] ≠ [] ∧
      (keyRecords 1 2 (processAll
          [(10, ⟨1, 2, 7, [⟨7, 5⟩, ⟨7, 6⟩]⟩), (15, ⟨3, 4, 8, [⟨8, 9⟩]⟩),
            (20, ⟨1, 2, 9, [⟨9, 1⟩]⟩)] emptyStore)).length = 1 ∧
      (keyRecords 1 2 (processAll
          [(10, ⟨1, 2, 7, [⟨7, 5⟩, ⟨7, 6⟩]⟩), (15, ⟨3, 4, 8, [⟨8, 9⟩]⟩),
            (20, ⟨1, 2, 9, [⟨9, 1⟩]⟩)] emptyStore)).map EMGRecord.dataPoints =
        [((keyEvents 1 2
            [(10, ⟨1, 2, 7, [⟨7, 5⟩, ⟨7, 6⟩]⟩), (15, ⟨3, 4, 8, [⟨8, 9⟩]⟩),
              (20, ⟨1, 2, 9, [⟨9, 1⟩]⟩)]).map EMGEvent.dataPoints).flatten] := by
  refine ⟨WF_emptyStore, by simp [emptyStore], by decide, ?_⟩
  exact sessionAggregator_single_record _ 1 2 emptyStore
    WF_emptyStore (by simp [emptyStore]) (by decide)

/-- **C2 (amended).** Event A creates the session with 3 samples, event B for
the same `(device, sessionId)` appends 2 more: one record remains with the 5
samples in order, and its `endTime` equals the wall-clock processing time of
B's append (`new Date()` at processing), not B's frame timestamp. -/
theorem sessionAggregator_append_scenario (d s tA tB now1 now2 : Nat)
    (ptsA ptsB : List DataPoint) (hA : ptsA.length = 3) (hB : ptsB.length = 2) :
    keyRecords d s (processAll [(now1, ⟨d, s, tA, ptsA⟩), (now2, ⟨d, s, tB, ptsB⟩)]
        emptyStore) =
      [{ id := 0, device := d, sessionId := s, startTime := now1,
         endTime := some now2, dataPoints := ptsA ++ ptsB,
         syncStatus := { synced := false, syncedAt := none } }] ∧
    (ptsA ++ ptsB).length = 5 := by
  constructor
  · have h1 : keyRecords d s (processEMGData now1 ⟨d, s, tA, ptsA⟩ emptyStore) =
        [{ id := 0, device := d, sessionId := s, startTime := now1,
           endTime := none, dataPoints := ptsA,
           syncStatus := { synced := false, syncedAt := none } }] :=
      keyRecords_process_create d s now1 _ emptyStore ⟨rfl, rfl⟩ rfl
    have h2 := keyRecords_process_append d s now2 ⟨d, s, tB, ptsB⟩
      (processEMGData now1 ⟨d, s, tA, ptsA⟩ emptyStore) ⟨rfl, rfl⟩ _ h1
    exact h2
  · rw [List.length_append, hA, hB]

theorem sessionAggregator_append_scenario_witness :
    ([(⟨50, 1⟩ : DataPoint), ⟨50, 2⟩, ⟨50, 3⟩].length = 3) ∧
      ([(⟨100, 4⟩ : DataPoint), ⟨100, 5⟩].length = 2) ∧
      (keyRecords 1 1 (processAll
          [(150, ⟨1, 1, 50, [⟨50, 1⟩, ⟨50, 2⟩, ⟨50, 3⟩]⟩),
            (200, ⟨1, 1, 100, [⟨100, 4⟩, ⟨100, 5⟩]⟩)] emptyStore) =
        [{ id := 0, device := 1, sessionId := 1, startTime := 150,
           endTime := some 200,
           dataPoints := ([⟨50, 1⟩, ⟨50, 2⟩, ⟨50, 3⟩] : List DataPoint) ++
             ([⟨100, 4⟩, ⟨100, 5⟩] : List DataPoint),
           syncStatus := { synced := false, syncedAt := none } }] ∧
        (([⟨50, 1⟩, ⟨50, 2⟩, ⟨50, 3⟩] : List DataPoint) ++
          ([⟨100, 4⟩, ⟨100, 5⟩] : List DataPoint)).length = 5) :=
  ⟨rfl, rfl,
    sessionAggregator_append_scenario 1 1 50 100 150 200
      [⟨50, 1⟩, ⟨50, 2⟩, ⟨50, 3⟩] [⟨100, 4⟩, ⟨100, 5⟩] rfl rfl⟩

/-- **C2 counterexample.** At the concrete input where event B carries frame
timestamp 100 but is processed at wall-clock time 200, the resulting record's
`endTime` is 200 — the claim that `endTime` equals B's timestamp (100) fails:
the code writes `endTime: new Date()`, the processing time. -/
theorem sessionAggregator_append_endTime_counterexample :
    ¬((keyRecords 1 1 (processAll
          [(150, ⟨1, 1, 50, [⟨50, 1⟩, ⟨50, 2⟩, ⟨50, 3⟩]⟩),
            (200, ⟨1, 1, 100, [⟨100, 4⟩, ⟨100, 5⟩]⟩)] emptyStore)).map
        EMGRecord.endTime = [some 100]) := by decide

/-! ## Reconnect backoff

Wireless transport (`connectToDevice` disconnect handler,
bluetooth.service.js 336-346): read the stored attempt counter, and if it
is below `maxReconnectAttempts`, store `counter + 1` and wait
`min(reconnectDelay * 2^counter, maxReconnectDelay)` — the delay uses the
counter value *before* the increment.

Pub/sub transport (`client.on("reconnect")`, mqtt.service.js 893-902):
increment `connectionState.reconnectCount` first, then set
`client.options.reconnectPeriod = min(reconnectDelay * 2^count, maxReconnectDelay)`
using the *incremented* count. -/

/-- The backoff formula `Math.min(base * Math.pow(2, attempts), cap)`. -/
def backoffDelay (base cap attempts : Nat) : Nat :=
  min (base * 2 ^ attempts) cap

/-- Wireless disconnect handler: returns the stored counter after the step
and the scheduled reconnect delay (`none` when attempts are exhausted).
The delay exponent is the pre-increment counter. -/
def bleDisconnectStep (base cap maxAttempts count : Nat) : Nat × Option Nat :=
  if count < maxAttempts then (count + 1, some (backoffDelay base cap count))
  else (count, none)

/-- Pub/sub `reconnect` handler: increments the counter, then computes the
new `reconnectPeriod` from the incremented counter. -/
def mqttReconnectStep (base cap count : Nat) : Nat × Nat :=
  let newCount := count + 1
  (newCount, backoffDelay base cap newCount)

/-- Successive wireless reconnect delays for `k` consecutive failures
starting from stored counter `count`. -/
def bleDelaySeq (base cap maxAttempts : Nat) : Nat → Nat → List Nat
  | _, 0 => []
  | count, k + 1 =>
      match bleDisconnectStep base cap maxAttempts count with
      | (c', some d) => d :: bleDelaySeq base cap maxAttempts c' k
      | (_, none) => []

/-- Successive pub/sub reconnect periods for `k` consecutive `reconnect`
events starting from counter `count`. -/
def mqttDelaySeq (base cap : Nat) : Nat → Nat → List Nat
  | _, 0 => []
  | count, k + 1 =>
      let p := mqttReconnectStep base cap count
      p.2 :: mqttDelaySeq base cap p.1 k

/-- **C3 counterexample.** With base 1000 ms and cap 30000 ms, the wireless
transport's first reconnect delay is computed from the pre-increment counter
`0`, i.e. `1000 * 2^0 = 1000` ms — not the 2000 ms the claim asserts for
both transports. -/
theorem bleFirstDelay_counterexample :
    ¬((bleDisconnectStep 1000 30000 10 0).2 = some 2000) := by decide

/-- **C3 (amended).** Both transports compute the delay as
`min(base * 2^attempts, maxDelay)` and clamp it at `maxDelay` for large
attempt counts, but the exponent starts at 1 on the first failure only for
the pub/sub transport (delays 2000, 4000, 8000 ms with base 1000/cap 30000);
the wireless transport uses the pre-increment counter, so its first three
delays are 1000, 2000, 4000 ms. -/
theorem reconnectBackoff_formula :
    (∀ base cap n, cap ≤ base * 2 ^ n → backoffDelay base cap n = cap) ∧
      (∀ base cap maxAttempts count, count < maxAttempts →
        (bleDisconnectStep base cap maxAttempts count).2 =
          some (min (base * 2 ^ count) cap)) ∧
      (∀ base cap count,
        (mqttReconnectStep base cap count).2 = min (base * 2 ^ (count + 1)) cap) ∧
      mqttDelaySeq 1000 30000 0 3 = [2000, 4000, 8000] ∧
      bleDelaySeq 1000 30000 10 0 3 = [1000, 2000, 4000] := by
  refine ⟨fun base cap n h => min_eq_right h, fun base cap maxAttempts count h => ?_,
    fun base cap count => rfl, by decide, by decide⟩
  unfold bleDisconnectStep
  rw [if_pos h]
  rfl

theorem reconnectBackoff_formula_witness :
    ((30000 : Nat) ≤ 1000 * 2 ^ 5 ∧ backoffDelay 1000 30000 5 = 30000) ∧
      ((0 : Nat) < 10 ∧
        (bleDisconnectStep 1000 30000 10 0).2 = some (min (1000 * 2 ^ 0) 30000)) :=
  ⟨⟨by decide, reconnectBackoff_formula.1 1000 30000 5 (by decide)⟩,
    ⟨by decide, reconnectBackoff_formula.2.1 1000 30000 10 0 (by decide)⟩⟩

/-! ## Connection supervisor state (C4)

Pub/sub `connect` handler (mqtt.service.js 836-839): sets
`connectionState.isConnected = true` and `connectionState.reconnectCount = 0`.
It does **not** touch `client.options.reconnectPeriod`, which only the
`reconnect` handler rewrites.  Wireless successful connect
(bluetooth.service.js 327-328): stores the peripheral and sets
`connectionState.reconnectCount.set(peripheral.id, 0)`. -/

/-- Pub/sub connection state: the `connectionState` record plus the mutable
`client.options.reconnectPeriod` (the stored backoff delay). -/
structure MqttConnState where
  isConnected : Bool
  reconnectCount : Nat
  reconnectPeriod : Nat
  deriving Repr, DecidableEq

/-- `client.on("connect")` handler (mqtt.service.js 836-839). -/
def mqttOnConnect (s : MqttConnState) : MqttConnState :=
  { s with isConnected := true, reconnectCount := 0 }

/-- `client.on("reconnect")` handler's effect on the connection state
(mqtt.service.js 893-902). -/
def mqttOnReconnect (base cap : Nat) (s : MqttConnState) : MqttConnState :=
  { s with reconnectCount := s.reconnectCount + 1,
           reconnectPeriod := backoffDelay base cap (s.reconnectCount + 1) }

/-- Wireless successful connect: per-device reconnect counter map update
`connectionState.reconnectCount.set(id, 0)` (bluetooth.service.js 328). -/
def bleOnConnect (counts : Nat → Nat) (id : Nat) : Nat → Nat :=
  fun d => if d = id then 0 else counts d

/-- **C4 counterexample.** From a state whose stored backoff period was
inflated to 16000 ms (configured base 1000 ms), the pub/sub `connect`
handler leaves `reconnectPeriod` at 16000 ms — it is not restored to the
base delay on a successful connect. -/
theorem mqttOnConnect_period_counterexample :
    ¬((mqttOnConnect ⟨false, 5, 16000⟩).reconnectPeriod = 1000) := by decide

/-- **C4 (amended).** Every successful connect resets the reconnect-attempt
counter to 0 for every prior value (both transports), but the pub/sub
transport's stored backoff period (`client.options.reconnectPeriod`) is left
unchanged by the connect handler rather than restored to the configured
base delay; it is only rewritten by the next `reconnect` event. -/
theorem successfulConnect_resets_attempts :
    (∀ s : MqttConnState, (mqttOnConnect s).reconnectCount = 0 ∧
        (mqttOnConnect s).isConnected = true ∧
        (mqttOnConnect s).reconnectPeriod = s.reconnectPeriod) ∧
      (∀ counts id, bleOnConnect counts id id = 0) ∧
      (∀ counts id d, d ≠ id → bleOnConnect counts id d = counts d) := by
  refine ⟨fun s => ⟨rfl, rfl, rfl⟩, fun counts id => if_pos rfl,
    fun counts id d h => if_neg h⟩

theorem successfulConnect_resets_attempts_witness :
    ((mqttOnConnect ⟨false, 7, 16000⟩).reconnectCount = 0 ∧
        (mqttOnConnect ⟨false, 7, 16000⟩).isConnected = true ∧
        (mqttOnConnect ⟨false, 7, 16000⟩).reconnectPeriod =
          (⟨false, 7, 16000⟩ : MqttConnState).reconnectPeriod) ∧
      ((2 : Nat) ≠ 1 ∧ bleOnConnect (fun _ => 9) 1 2 = 9) :=
  ⟨successfulConnect_resets_attempts.1 ⟨false, 7, 16000⟩,
    ⟨by decide, successfulConnect_resets_attempts.2.2 (fun _ => 9) 1 2 (by decide)⟩⟩

/-! ## Sync scheduler single-flight guard (C5)

`SyncService.syncData` (sync.service.js 1161-1203 of the concatenated
file): `if (this.isSyncing) return;` then `this.isSyncing = true;` — in the
single-threaded event loop this check-and-set runs atomically (no `await`
between them) — the run body follows, and a `finally` block sets
`this.isSyncing = false` whether the body completed or threw.

Each invocation of `syncData` is a thread with a program counter: `idle`
(about to run the guard), `running` (between setting and clearing the
flag, i.e. executing the body), `doneRan`, or `doneSkipped` (returned as a
no-op).  `fails` records whether that invocation's body would throw; the
`finally` semantics means the flag-clearing step ignores it.  A schedule
is an arbitrary interleaving of atomic steps. -/

inductive SyncPC where
  | idle
  | running
  | doneRan
  | doneSkipped
  deriving Repr, DecidableEq

structure SyncThread where
  pc : SyncPC
  fails : Bool
  deriving Repr, DecidableEq

structure SyncSys where
  isSyncing : Bool
  threads : List SyncThread
  deriving Repr, DecidableEq

/-- The effect of one atomic step of invocation `i` found in state `t`:
the guarded entry (`if (this.isSyncing) return; this.isSyncing = true`) or
the body completing with its `finally { this.isSyncing = false }` (run
regardless of `fails`). -/
def stepAt (sys : SyncSys) (i : Nat) (t : SyncThread) : SyncSys :=
  match t.pc with
  | .idle =>
      if sys.isSyncing then
        { sys with threads := sys.threads.set i { t with pc := .doneSkipped } }
      else
        { isSyncing := true, threads := sys.threads.set i { t with pc := .running } }
  | .running =>
      { isSyncing := false, threads := sys.threads.set i { t with pc := .doneRan } }
  | _ => sys

/-- One atomic step of invocation `i` (no-op on an out-of-range index). -/
def stepThread (sys : SyncSys) (i : Nat) : SyncSys :=
  match sys.threads.get? i with
  | none => sys
  | some t => stepAt sys i t

/-- Run a schedule (sequence of thread indices) of atomic steps. -/
def runSched (sched : List Nat) (sys : SyncSys) : SyncSys :=
  sched.foldl stepThread sys

/-- Number of invocations currently executing the run body. -/
def runningCount (sys : SyncSys) : Nat :=
  sys.threads.countP (fun t => t.pc == SyncPC.running)

/-- Single-flight invariant: the flag mirrors whether a body is executing,
and at most one body executes. -/
def SyncInv (sys : SyncSys) : Prop :=
  sys.isSyncing = decide (0 < runningCount sys) ∧ runningCount sys ≤ 1

/-- All invocations pending, flag clear; `fl` lists each invocation's
would-fail bit. -/
def initSys (fl : List Bool) : SyncSys :=
  ⟨false, fl.map (fun f => ⟨SyncPC.idle, f⟩)⟩

theorem countP_set (p : SyncThread → Bool) :
    ∀ (l : List SyncThread) (i : Nat) (t x : SyncThread), l.get? i = some t →
      (l.set i x).countP p + (if p t then 1 else 0) =
        l.countP p + (if p x then 1 else 0)
  | [], i, t, x => by intro h; simp at h
  | a :: rest, 0, t, x => by
      intro h
      obtain rfl : a = t := by simpa using h
      simp only [List.set_cons_zero, List.countP_cons]
      omega
  | a :: rest, i + 1, t, x => by
      intro h
      simp only [List.set_cons_succ, List.countP_cons]
      have := countP_set p rest i t x (by simpa using h)
      omega

theorem stepThread_of_get?_none (sys : SyncSys) (i : Nat)
    (h : sys.threads.get? i = none) : stepThread sys i = sys := by
  unfold stepThread
  rw [h]

theorem stepThread_of_get?_some (sys : SyncSys) (i : Nat) (t : SyncThread)
    (h : sys.threads.get? i = some t) : stepThread sys i = stepAt sys i t := by
  unfold stepThread
  rw [h]

theorem stepThread_inv (sys : SyncSys) (i : Nat) (h : SyncInv sys) :
    SyncInv (stepThread sys i) := by
  obtain ⟨hflag, hle⟩ := h
  cases hget : sys.threads.get? i with
  | none => rw [stepThread_of_get?_none sys i hget]; exact ⟨hflag, hle⟩
  | some t =>
      rw [stepThread_of_get?_some sys i t hget]
      have htmem : t ∈ sys.threads := List.get?_mem hget
      unfold stepAt
      cases hpc : t.pc with
      | doneRan => exact ⟨hflag, hle⟩
      | doneSkipped => exact ⟨hflag, hle⟩
      | idle =>
          have hpt : (fun u : SyncThread => u.pc == SyncPC.running) t = false := by
            show (t.pc == SyncPC.running) = false
            rw [hpc]
            rfl
          by_cases hsync : sys.isSyncing = true
          · rw [if_pos hsync]
            have hcnt := countP_set (fun u : SyncThread => u.pc == SyncPC.running)
              sys.threads i t { t with pc := .doneSkipped } hget
            have hpx : (fun u : SyncThread => u.pc == SyncPC.running)
                { t with pc := SyncPC.doneSkipped } = false := rfl
            rw [hpt, hpx] at hcnt
            rw [show (if (false = true) then (1 : Nat) else 0) = 0 from rfl,
              Nat.add_zero, Nat.add_zero] at hcnt
            have hcnt' : runningCount
                { sys with threads :=
                    sys.threads.set i { t with pc := SyncPC.doneSkipped } } =
                runningCount sys := by
              show List.countP (fun u : SyncThread => u.pc == SyncPC.running)
                  (sys.threads.set i { t with pc := SyncPC.doneSkipped }) =
                List.countP (fun u : SyncThread => u.pc == SyncPC.running) sys.threads
              omega
            exact ⟨by rw [hcnt']; exact hflag, by rw [hcnt']; exact hle⟩
          · rw [if_neg hsync]
            have hsync' : sys.isSyncing = false := by
              cases hb : sys.isSyncing
              · rfl
              · exact absurd hb hsync
            have hzero : List.countP (fun u : SyncThread => u.pc == SyncPC.running)
                sys.threads = 0 := by
              rw [hsync'] at hflag
              by_contra hne
              have hpos : 0 < runningCount sys := Nat.pos_of_ne_zero hne
              simp [hpos] at hflag
            have hcnt := countP_set (fun u : SyncThread => u.pc == SyncPC.running)
              sys.threads i t { t with pc := .running } hget
            have hpx : (fun u : SyncThread => u.pc == SyncPC.running)
                { t with pc := SyncPC.running } = true := rfl
            rw [hpt, hpx] at hcnt
            rw [show (if (false = true) then (1 : Nat) else 0) = 0 from rfl,
              show (if (true = true) then (1 : Nat) else 0) = 1 from rfl,
              Nat.add_zero] at hcnt
            have hone : runningCount
                { isSyncing := true,
                  threads := sys.threads.set i { t with pc := SyncPC.running } } = 1 := by
              show List.countP (fun u : SyncThread => u.pc == SyncPC.running)
                  (sys.threads.set i { t with pc := SyncPC.running }) = 1
              omega
            exact ⟨by rw [hone]; rfl, by rw [hone]⟩
      | running =>
          have hpos : 0 < List.countP (fun u : SyncThread => u.pc == SyncPC.running)
              sys.threads :=
            List.countP_pos_iff.mpr ⟨t, htmem, by rw [hpc]; rfl⟩
          have hle' : List.countP (fun u : SyncThread => u.pc == SyncPC.running)
              sys.threads ≤ 1 := hle
          have hcnt := countP_set (fun u : SyncThread => u.pc == SyncPC.running)
            sys.threads i t { t with pc := .doneRan } hget
          have hpt : (fun u : SyncThread => u.pc == SyncPC.running) t = true := by
            show (t.pc == SyncPC.running) = true
            rw [hpc]
            rfl
          have hpx : (fun u : SyncThread => u.pc == SyncPC.running)
              { t with pc := SyncPC.doneRan } = false := rfl
          rw [hpt, hpx] at hcnt
          rw [show (if (true = true) then (1 : Nat) else 0) = 1 from rfl,
            show (if (false = true) then (1 : Nat) else 0) = 0 from rfl,
            Nat.add_zero] at hcnt
          have hzero : runningCount
              { isSyncing := false,
                threads := sys.threads.set i { t with pc := SyncPC.doneRan } } = 0 := by
            show List.countP (fun u : SyncThread => u.pc == SyncPC.running)
                (sys.threads.set i { t with pc := SyncPC.doneRan }) = 0
            omega
          exact ⟨by rw [hzero]; rfl, by rw [hzero]; exact Nat.zero_le 1⟩

theorem runSched_inv (sched : List Nat) :
    ∀ sys : SyncSys, SyncInv sys → SyncInv (runSched sched sys) := by
  induction sched with
  | nil => exact fun sys h => h
  | cons i rest ih =>
      intro sys h
      exact ih (stepThread sys i) (stepThread_inv sys i h)

theorem initSys_inv (fl : List Bool) : SyncInv (initSys fl) := by
  have hzero : runningCount (initSys fl) = 0 := by
    unfold runningCount initSys
    simp only
    rw [List.countP_eq_zero.mpr]
    intro a ha
    obtain ⟨f, _, rfl⟩ := List.mem_map.mp ha
    simp
  exact ⟨by rw [hzero]; rfl, by rw [hzero]; exact Nat.zero_le 1⟩

/-- **C5.** The sync run is single-flight: (1) under every interleaving of
invocation steps from an all-pending start, at most one run body is ever
executing; (2) an invocation that reaches the guard while a run is in
progress only marks itself as skipped — the flag, the store, and every
other invocation are untouched (a no-op, not queued); (3) a finishing run
clears the in-progress flag even when its body fails (the `finally`). -/
theorem syncData_single_flight :
    (∀ (fl : List Bool) (sched : List Nat),
        runningCount (runSched sched (initSys fl)) ≤ 1) ∧
      (∀ (sys : SyncSys) (i : Nat) (t : SyncThread),
        sys.threads.get? i = some t → t.pc = SyncPC.idle → sys.isSyncing = true →
          stepThread sys i =
            { sys with threads := sys.threads.set i { t with pc := .doneSkipped } }) ∧
      (∀ (sys : SyncSys) (i : Nat) (t : SyncThread),
        sys.threads.get? i = some t → t.pc = SyncPC.running →
          (stepThread sys i).isSyncing = false) := by
  refine ⟨fun fl sched => (runSched_inv sched (initSys fl) (initSys_inv fl)).2,
    fun sys i t hget hpc hsync => ?_, fun sys i t hget hpc => ?_⟩
  · rw [stepThread_of_get?_some sys i t hget]
    unfold stepAt
    rw [hpc, if_pos hsync]
  · rw [stepThread_of_get?_some sys i t hget]
    unfold stepAt
    rw [hpc]

theorem syncData_single_flight_witness :
    ((⟨true, [⟨SyncPC.idle, false⟩, ⟨SyncPC.running, true⟩]⟩ :
          SyncSys).threads.get? 0 = some ⟨SyncPC.idle, false⟩ ∧
        (⟨SyncPC.idle, false⟩ : SyncThread).pc = SyncPC.idle ∧
        (⟨true, [⟨SyncPC.idle, false⟩, ⟨SyncPC.running, true⟩]⟩ :
          SyncSys).isSyncing = true ∧
        stepThread ⟨true, [⟨SyncPC.idle, false⟩, ⟨SyncPC.running, true⟩]⟩ 0 =
          ⟨true, [⟨SyncPC.doneSkipped, false⟩, ⟨SyncPC.running, true⟩]⟩) ∧
      ((⟨true, [⟨SyncPC.idle, false⟩, ⟨SyncPC.running, true⟩]⟩ :
          SyncSys).threads.get? 1 = some ⟨SyncPC.running, true⟩ ∧
        (stepThread ⟨true, [⟨SyncPC.idle, false⟩, ⟨SyncPC.running, true⟩]⟩ 1).isSyncing =
          false) :=
  ⟨⟨rfl, rfl, rfl,
      syncData_single_flight.2.1
        ⟨true, [⟨SyncPC.idle, false⟩, ⟨SyncPC.running, true⟩]⟩ 0
        ⟨SyncPC.idle, false⟩ rfl rfl rfl⟩,
    ⟨rfl,
      syncData_single_flight.2.2
        ⟨true, [⟨SyncPC.idle, false⟩, ⟨SyncPC.running, true⟩]⟩ 1
        ⟨SyncPC.running, true⟩ rfl rfl⟩⟩

/-! ## Sync scheduler: record push, batching, monotone sync flag

`SyncService.syncEMGRecord` (sync.service.js): the simulated remote push
plus `record.save()` may fail; the surrounding `try`/`catch` returns
`false` and leaves the stored record unchanged; on success the record is
persisted with `syncStatus.synced = true` and `syncedAt = new Date()`.
The push outcome is modelled by the oracle `pushOk`.

`SyncService.syncData` fetches
`EMGData.find({'syncStatus.synced': false}).limit(100)` and loops over the
fetched records, awaiting `syncEMGRecord` on each — no fetched record is
skipped because an earlier one failed.

`SyncService.forceSyncRecords` fetches by id list and pushes each, returning
a `{total, success, failed}` summary. -/

/-- `SyncService.syncEMGRecord`: `(updated record, success flag)`. -/
def syncEMGRecord (pushOk : EMGRecord → Bool) (now : Nat) (r : EMGRecord) :
    EMGRecord × Bool :=
  if pushOk r then
    ({ r with syncStatus := { synced := true, syncedAt := some now } }, true)
  else (r, false)

/-- `EMGData.find({'syncStatus.synced': false}).limit(limit)`. -/
def findUnsynced (records : List EMGRecord) (limit : Nat) : List EMGRecord :=
  (records.filter (fun r => !r.syncStatus.synced)).take limit

/-- The per-record loop of a sync run over an already-fetched batch. -/
def syncBatch (pushOk : EMGRecord → Bool) (now : Nat)
    (records : List EMGRecord) : List EMGRecord :=
  records.map (fun r => (syncEMGRecord pushOk now r).1)

/-- One `syncData` run's effect on the stored EMG collection: fetch up to
100 unsynced records, push each, persisting each record's own outcome. -/
def syncDataRun (pushOk : EMGRecord → Bool) (now : Nat)
    (store : List EMGRecord) : List EMGRecord :=
  let batch := findUnsynced store 100
  store.map (fun r =>
    if batch.any (fun b => b.id == r.id) then (syncEMGRecord pushOk now r).1 else r)

/-- `SyncService.forceSyncRecords`: sync the records whose ids are listed;
returns the updated collection and the `(total, success, failed)` summary. -/
def forceSyncRecords (pushOk : EMGRecord → Bool) (now : Nat) (ids : List Nat)
    (store : List EMGRecord) : List EMGRecord × Nat × Nat × Nat :=
  let records := store.filter (fun r => ids.contains r.id)
  let successCount := records.countP (fun r => (syncEMGRecord pushOk now r).2)
  (store.map (fun r =>
      if ids.contains r.id then (syncEMGRecord pushOk now r).1 else r),
    records.length, successCount, records.length - successCount)

/-- **C6.** Per-record failure isolation in a sync run: the batch loop
attempts every record (output length equals batch length); the `i`-th
outcome depends only on the `i`-th record's own push — success marks it
synced, failure leaves it untouched (unsynced, not retried in the run);
in a batch of 10 unsynced records where exactly the record with id 3
fails, the other 9 are marked synced and record 3 remains `synced:false`. -/
theorem syncRun_record_failure_isolated :
    (∀ (pushOk : EMGRecord → Bool) (now : Nat) (records : List EMGRecord),
        (syncBatch pushOk now records).length = records.length) ∧
      (∀ (pushOk : EMGRecord → Bool) (now : Nat) (records : List EMGRecord) (i : Nat),
        (syncBatch pushOk now records).get? i = (records.get? i).map (fun r =>
          if pushOk r then
            { r with syncStatus := { synced := true, syncedAt := some now } }
          else r)) ∧
      ((syncBatch (fun r => !(r.id == 3)) 42
          ((List.range 10).map
            (fun i => ⟨i, 0, i, 0, none, [], ⟨false, none⟩⟩))).countP
          (fun r => r.syncStatus.synced) = 9 ∧
        ((syncBatch (fun r => !(r.id == 3)) 42
            ((List.range 10).map
              (fun i => ⟨i, 0, i, 0, none, [], ⟨false, none⟩⟩))).filter
            (fun r => r.id == 3)).map (fun r => r.syncStatus.synced) = [false]) := by
  refine ⟨fun pushOk now records => List.length_map records _,
    fun pushOk now records i => ?_, by decide, by decide⟩
  rw [syncBatch, List.get?_map]
  cases records.get? i with
  | none => rfl
  | some r =>
      refine congrArg some ?_
      show (syncEMGRecord pushOk now r).1 =
        if pushOk r = true then
          { r with syncStatus := { synced := true, syncedAt := some now } }
        else r
      unfold syncEMGRecord
      by_cases h : pushOk r
      · rw [if_pos h, if_pos h]
      · rw [if_neg h, if_neg h]

set_option maxRecDepth 20000 in
/-- **C8.** A sync-run fetch returns at most the configured batch size, and
in the concrete 150-unsynced-records scenario exactly 100 are attempted in
the run (all succeeding) while the remaining 50 are left unsynced for — and
fetched by — the next cycle. -/
theorem findUnsynced_batch_limit :
    (∀ (records : List EMGRecord) (limit : Nat),
        (findUnsynced records limit).length ≤ limit) ∧
      (findUnsynced
          ((List.range 150).map (fun i => ⟨i, 0, i, 0, none, [], ⟨false, none⟩⟩))
          100).length = 100 ∧
      ((syncDataRun (fun _ => true) 5
          ((List.range 150).map
            (fun i => ⟨i, 0, i, 0, none, [], ⟨false, none⟩⟩))).countP
        (fun r => !r.syncStatus.synced)) = 50 ∧
      (findUnsynced
          (syncDataRun (fun _ => true) 5
            ((List.range 150).map (fun i => ⟨i, 0, i, 0, none, [], ⟨false, none⟩⟩)))
          100).length = 50 := by
  refine ⟨fun records limit => ?_, by decide, by decide, by decide⟩
  exact (List.length_take _ _).trans_le (min_le_left _ _)

/-- **C9.** `syncStatus.synced` is monotone false→true across every
operation of the core: an ingestion pass never changes any stored record's
flag and any record it creates starts with `synced = false`; a sync attempt
never clears a true flag (success or failure); a successful sync attempt
sets `syncStatus` to `{synced := true, syncedAt := now}`; and neither a
sync run nor a force sync ever resets a record that is already synced. -/
theorem syncedFlag_monotone :
    (∀ (now : Nat) (e : EMGEvent) (st : EMGStore),
        (processEMGData now e st).records.map (fun r => r.syncStatus.synced) =
            st.records.map (fun r => r.syncStatus.synced) ∨
          (processEMGData now e st).records.map (fun r => r.syncStatus.synced) =
            st.records.map (fun r => r.syncStatus.synced) ++ [false]) ∧
      (∀ (pushOk : EMGRecord → Bool) (now : Nat) (r : EMGRecord),
        r.syncStatus.synced = true →
          ((syncEMGRecord pushOk now r).1).syncStatus.synced = true) ∧
      (∀ (pushOk : EMGRecord → Bool) (now : Nat) (r : EMGRecord),
        pushOk r = true →
          ((syncEMGRecord pushOk now r).1).syncStatus =
            { synced := true, syncedAt := some now }) ∧
      (∀ (pushOk : EMGRecord → Bool) (now : Nat) (store : List EMGRecord)
          (i : Nat) (r : EMGRecord), store.get? i = some r →
        r.syncStatus.synced = true →
          ∃ r', (syncDataRun pushOk now store).get? i = some r' ∧
            r'.syncStatus.synced = true) ∧
      (∀ (pushOk : EMGRecord → Bool) (now : Nat) (ids : List Nat)
          (store : List EMGRecord) (i : Nat) (r : EMGRecord),
        store.get? i = some r → r.syncStatus.synced = true →
          ∃ r', (forceSyncRecords pushOk now ids store).1.get? i = some r' ∧
            r'.syncStatus.synced = true) := by
  refine ⟨fun now e st => ?_, fun pushOk now r h => ?_, fun pushOk now r h => ?_,
    fun pushOk now store i r hget h => ?_, fun pushOk now ids store i r hget h => ?_⟩
  · unfold processEMGData
    cases findSession st e.device e.sessionId with
    | some r0 =>
        left
        unfold findByIdAndUpdate
        rw [List.map_map]
        refine List.map_congr_left (fun r _ => ?_)
        show ((if r.id == r0.id then appendUpdate e.dataPoints now r else r)).syncStatus.synced =
          r.syncStatus.synced
        split <;> rfl
    | none =>
        right
        unfold createSession
        rw [List.map_append]
        rfl
  · unfold syncEMGRecord
    by_cases hp : pushOk r
    · rw [if_pos hp]
    · rw [if_neg hp]
      exact h
  · unfold syncEMGRecord
    rw [if_pos h]
  · unfold syncDataRun
    simp only
    rw [List.get?_map, hget]
    refine ⟨_, rfl, ?_⟩
    show (if ((findUnsynced store 100).any fun b => b.id == r.id) = true
        then (syncEMGRecord pushOk now r).1 else r).syncStatus.synced = true
    split
    · unfold syncEMGRecord
      split
      · rfl
      · exact h
    · exact h
  · unfold forceSyncRecords
    simp only
    rw [List.get?_map, hget]
    refine ⟨_, rfl, ?_⟩
    show (if ids.contains r.id = true
        then (syncEMGRecord pushOk now r).1 else r).syncStatus.synced = true
    split
    · unfold syncEMGRecord
      split
      · rfl
      · exact h
    · exact h

theorem syncedFlag_monotone_witness :
    (((⟨4, 0, 1, 0, none, [], ⟨true, some 9⟩⟩ : EMGRecord).syncStatus.synced = true) ∧
        ((syncEMGRecord (fun _ => false) 7
            ⟨4, 0, 1, 0, none, [], ⟨true, some 9⟩⟩).1).syncStatus.synced = true) ∧
      (((fun _ : EMGRecord => true) ⟨5, 0, 1, 0, none, [], ⟨false, none⟩⟩ = true) ∧
        ((syncEMGRecord (fun _ => true) 7
            ⟨5, 0, 1, 0, none, [], ⟨false, none⟩⟩).1).syncStatus =
          { synced := true, syncedAt := some 7 }) ∧
      (([(⟨4, 0, 1, 0, none, [], ⟨true, some 9⟩⟩ : EMGRecord)].get? 0 =
          some ⟨4, 0, 1, 0, none, [], ⟨true, some 9⟩⟩) ∧
        ∃ r', (syncDataRun (fun _ => false) 7
            [⟨4, 0, 1, 0, none, [], ⟨true, some 9⟩⟩]).get? 0 = some r' ∧
          r'.syncStatus.synced = true) :=
  ⟨⟨rfl, syncedFlag_monotone.2.1 (fun _ => false) 7
      ⟨4, 0, 1, 0, none, [], ⟨true, some 9⟩⟩ rfl⟩,
    ⟨rfl, syncedFlag_monotone.2.2.1 (fun _ => true) 7
      ⟨5, 0, 1, 0, none, [], ⟨false, none⟩⟩ rfl⟩,
    ⟨rfl, syncedFlag_monotone.2.2.2.1 (fun _ => false) 7
      [⟨4, 0, 1, 0, none, [], ⟨true, some 9⟩⟩] 0
      ⟨4, 0, 1, 0, none, [], ⟨true, some 9⟩⟩ rfl rfl⟩⟩

end Myozen
